import Mathlib

/-!
Shallow embedding of the effects-compositing core of `src/core/effects_processor.py`
(class `EffectsProcessor`), together with the PIL / numpy primitives it uses, and
proofs settling the claims about it.

Conventions of the embedding:
* Images are total functions from integer coordinates to pixel values; an image is
  always used together with explicit canvas dimensions `w h : ℕ`, and only the
  pixels with `0 ≤ x < w`, `0 ≤ y < h` are meaningful.
* Channel values are natural numbers; PIL stores bytes, so theorems that need it
  carry a `≤ 255` hypothesis.
* Python floats are modelled by exact rationals `ℚ` (the claims under test never
  hinge on binary-float rounding).
* `PIL.ImageFilter.GaussianBlur` is an external library primitive whose kernel is
  not part of this repository; it is modelled as an explicit function parameter
  `gblur`.  Likewise the raw-angle branch of `_create_gradient` computes gradient
  endpoints with `math.cos`/`math.sin`/`math.sqrt`; those endpoints are modelled
  as the parameter `trig` (every claim under test exercises only the
  named-direction branch, whose endpoints are exact).
* Python exceptions are modelled by `Except Unit`; builders that wrap their body
  in `try/except ...: return None` return `Option` instead.
-/

set_option allowUnsafeReducibility true

attribute [semireducible] Rat.mul Rat.add Rat.sub Rat.inv Rat.div Rat.ofScientific Rat.floor Rat.ceil

/-- One RGBA pixel (channel order r, g, b, a), as stored by PIL `RGBA` images. -/
structure RGBA where
  r : ℕ
  g : ℕ
  b : ℕ
  a : ℕ
deriving DecidableEq, Repr

/-- A single-channel (`L`-mode) image: a total map from coordinates to a value. -/
abbrev Chan := ℤ → ℤ → ℕ

/-- An RGBA image: a total map from coordinates to a pixel. -/
abbrev Pix := ℤ → ℤ → RGBA

/-- The fully transparent pixel `(0, 0, 0, 0)`. -/
def clearPx : RGBA := ⟨0, 0, 0, 0⟩

/-- Model of `Image.new('RGBA', size, c)`: a constant image. -/
def constPix (c : RGBA) : Pix := fun _ _ => c

/-- The fully transparent canvas `Image.new('RGBA', size, (0,0,0,0))`. -/
def transparentPix : Pix := constPix clearPx

/-- Model of `img.split()[3]`: the alpha band of an RGBA image. -/
def alphaOf (im : Pix) : Chan := fun x y => (im x y).a

/-- Model of `img.putalpha(mask)`: replace the alpha band. -/
def putalpha (im : Pix) (m : Chan) : Pix :=
  fun x y => { im x y with a := m x y }

/-- Clamp an integer into the byte range `[0, 255]` (the cast PIL applies to
point-LUT entries). -/
def clampByte (z : ℤ) : ℕ := (max 0 (min 255 z)).toNat

/-- Python `int(...)` on a float: truncation toward zero, on exact rationals. -/
def pyInt (q : ℚ) : ℤ := if 0 ≤ q then ⌊q⌋ else -⌊-q⌋

/-- Python `round(...)` on a float: round half to even, on exact rationals. -/
def pyRound (q : ℚ) : ℤ :=
  let f := ⌊q⌋
  let r := q - f
  if r < 1 / 2 then f
  else if 1 / 2 < r then f + 1
  else if f % 2 = 0 then f else f + 1

/-- PIL's `SHIFTFORDIV255` macro: `(((a >> 8) + a) >> 8)`, an exact
rounding division by 255 on the ranges PIL uses it. -/
def shiftForDiv255 (x : ℕ) : ℕ := (x / 256 + x) / 256

/-- PIL's `MULDIV255(a, b)` macro: `SHIFTFORDIV255(a * b + 128)`. -/
def mulDiv255 (a b : ℕ) : ℕ := shiftForDiv255 (a * b + 128)

/-- PIL's `BLEND` macro for paste with a soft (`L`) mask:
`MULDIV255(dst, 255 - m) + MULDIV255(src, m)` on one byte. -/
def blendByte (m d s : ℕ) : ℕ := mulDiv255 d (255 - m) + mulDiv255 s m

/-- Model of `BLEND` applied to all four channels of an RGBA pixel (paste of an RGBA
image with a soft mask blends the alpha band too). -/
def blendRGBA (m : ℕ) (d s : RGBA) : RGBA :=
  ⟨blendByte m d.r s.r, blendByte m d.g s.g, blendByte m d.b s.b, blendByte m d.a s.a⟩

/-- Model of `Image.alpha_composite` on one pixel, following Pillow's `AlphaComposite.c`
(7 bits of interpolation precision, `SHIFTFORDIV255` roundings). -/
def alphaCompositePx (dst src : RGBA) : RGBA :=
  if src.a = 0 then dst
  else
    let blend := dst.a * (255 - src.a)
    let outa255 := src.a * 255 + blend
    let coef1 := src.a * 255 * 255 * 128 / outa255
    let coef2 := 255 * 128 - coef1
    let mix := fun (s d : ℕ) => shiftForDiv255 (s * coef1 + d * coef2 + 128 * 128) / 128
    ⟨mix src.r dst.r, mix src.g dst.g, mix src.b dst.b, shiftForDiv255 (outa255 + 128)⟩

/-- Model of `Image.alpha_composite(dst, src)` on whole (same-size) images. -/
def alphaComposite (dst src : Pix) : Pix :=
  fun x y => alphaCompositePx (dst x y) (src x y)

/-- Whether `(x, y)` lies in a `w × h` canvas. -/
def inCanvas (w h : ℕ) (x y : ℤ) : Bool :=
  decide (0 ≤ x) && decide (x < w) && decide (0 ≤ y) && decide (y < h)

/-- Model of `dst.paste(src, (ox, oy), mask)` with an `L`-mode (soft) mask: inside the
pasted region every channel is `BLEND`ed, elsewhere `dst` is kept.  `src` and
`mask` share the `w × h` size of `dst` (as at every call site in the source). -/
def pasteSoft (w h : ℕ) (dst src : Pix) (ox oy : ℤ) (m : Chan) : Pix :=
  fun x y =>
    if inCanvas w h (x - ox) (y - oy) then
      blendRGBA (m (x - ox) (y - oy)) (dst x y) (src (x - ox) (y - oy))
    else dst x y

/-- Model of `dst.paste(src, (ox, oy), mask)` with a `1`-mode (binary) mask: the source
pixel is copied wherever the stored mask byte is nonzero. -/
def pasteBinary (w h : ℕ) (dst src : Pix) (ox oy : ℤ) (m : Chan) : Pix :=
  fun x y =>
    if inCanvas w h (x - ox) (y - oy) ∧ m (x - ox) (y - oy) ≠ 0 then
      src (x - ox) (y - oy)
    else dst x y

/-- Model of `dst.paste(src, (ox, oy))` (no mask) on `L`-mode images: a hard copy of the
pasted region. -/
def pasteChan (w h : ℕ) (dst src : Chan) (ox oy : ℤ) : Chan :=
  fun x y =>
    if inCanvas w h (x - ox) (y - oy) then src (x - ox) (y - oy) else dst x y

/-- Model of `Image.point(f)` on an `L` image: PIL builds a byte LUT, so the result of
`f` is cast into `[0, 255]`. -/
def pointChan (f : ℕ → ℤ) (m : Chan) : Chan :=
  fun x y => clampByte (f (m x y))

/-- Coordinate clamping used by `ImageFilter` rank filters, which `expand` the
image by replicating its border pixels before filtering. -/
def clampCoord (n : ℕ) (z : ℤ) : ℤ := max 0 (min ((n : ℤ) - 1) z)

/-- Model of `mask.filter(ImageFilter.MaxFilter(3))`: a 3×3 maximum with replicated
borders. -/
def maxFilter3 (w h : ℕ) (m : Chan) : Chan :=
  fun x y =>
    let g : ℤ → ℤ → ℕ := fun dx dy => m (clampCoord w (x + dx)) (clampCoord h (y + dy))
    max (max (max (g (-1) (-1)) (g 0 (-1))) (max (g 1 (-1)) (g (-1) 0)))
      (max (max (g 0 0) (g 1 0)) (max (g (-1) 1) (max (g 0 1) (g 1 1))))

/-- Model of `np.clip(np.array(a) - np.array(b), 0, 255)` on `uint8` arrays: the
subtraction wraps modulo 256 and the clip is then a no-op. -/
def u8sub (a b : ℕ) : ℕ := (a + 256 - b % 256) % 256

/-- One hexadecimal digit (`int(_, 16)` accepts both cases). -/
def hexVal (c : Char) : Option ℕ :=
  if '0' ≤ c ∧ c ≤ '9' then some (c.toNat - 48)
  else if 'a' ≤ c ∧ c ≤ 'f' then some (c.toNat - 87)
  else if 'A' ≤ c ∧ c ≤ 'F' then some (c.toNat - 55)
  else none

/-- Python `int(two_chars, 16)`: both characters must be hex digits, otherwise a
`ValueError` is raised.  (CPython also tolerates some exotic signed/whitespace
forms inside `int`; no call site of this repository produces those.) -/
def hexByte (c1 c2 : Char) : Except Unit ℕ :=
  match hexVal c1, hexVal c2 with
  | some a, some b => .ok (16 * a + b)
  | _, _ => .error ()

/-- The list of characters of `hex_color.lstrip('#')`. -/
def hexStrip (s : String) : List Char := s.toList.dropWhile (· = '#')

/-- Model of `hex_to_rgba` applied to an already-stripped character list. -/
def hexParse (cs : List Char) (alpha : ℕ) : Except Unit (ℕ × ℕ × ℕ × ℕ) :=
  match cs with
  | [h1, h2, h3, h4, h5, h6] =>
    match hexByte h1 h2, hexByte h3 h4, hexByte h5 h6 with
    | .ok r, .ok g, .ok b => .ok (r, g, b, alpha)
    | _, _, _ => .error ()
  | [h1, h2, h3, h4, h5, h6, h7, h8] =>
    match hexByte h1 h2, hexByte h3 h4, hexByte h5 h6, hexByte h7 h8 with
    | .ok r, .ok g, .ok b, .ok a =>
      .ok (r, g, b, if alpha ≠ 255 then alpha else a)
    | _, _, _, _ => .error ()
  | _ => .ok (255, 255, 255, alpha)

/-- Model of `EffectsProcessor.hex_to_rgba(hex_color, alpha=255)`: empty/falsy input and
lengths other than 6 or 8 yield opaque white; 6- and 8-digit strings are parsed
with `int(_, 16)`, which raises (`.error`) on a non-hex character. -/
def hex_to_rgba (hexColor : String) (alpha : ℕ) : Except Unit (ℕ × ℕ × ℕ × ℕ) :=
  if hexColor = "" then .ok (255, 255, 255, alpha)
  else hexParse (hexStrip hexColor) alpha

/-- First three components (the `[:3]` slices applied to `hex_to_rgba` results). -/
def rgbOf (c : ℕ × ℕ × ℕ × ℕ) : ℕ × ℕ × ℕ := (c.1, c.2.1, c.2.2.1)

instance {ε α : Type} [DecidableEq ε] [DecidableEq α] : DecidableEq (Except ε α) :=
  fun a b =>
    match a, b with
    | .ok x, .ok y =>
      if h : x = y then .isTrue (by rw [h]) else .isFalse (fun hc => h (Except.ok.inj hc))
    | .error x, .error y =>
      if h : x = y then .isTrue (by rw [h]) else .isFalse (fun hc => h (Except.error.inj hc))
    | .ok _, .error _ => .isFalse (fun hc => Except.noConfusion hc)
    | .error _, .ok _ => .isFalse (fun hc => Except.noConfusion hc)

theorem hexParse_other_lengths (cs : List Char) (alpha : ℕ)
    (h6 : cs.length ≠ 6) (h8 : cs.length ≠ 8) :
    hexParse cs alpha = .ok (255, 255, 255, alpha) := by
  rcases cs with _ | ⟨a1, _ | ⟨a2, _ | ⟨a3, _ | ⟨a4, _ | ⟨a5, _ | ⟨a6, _ | ⟨a7, _ | ⟨a8, t⟩⟩⟩⟩⟩⟩⟩⟩ <;>
    first
      | rfl
      | (exact absurd rfl h6)
      | (cases t with
          | nil => exact absurd rfl h8
          | cons a9 t9 => rfl)

/-- Claim C6 (counterexample): `hex_to_rgba` does not recover from every
malformed hex value — a 6-character string of non-hex characters reaches
`int(_, 16)` and raises `ValueError` instead of yielding opaque white. -/
theorem c6_hex_malformed_raises :
    hex_to_rgba "zzzzzz" 255 = .error () ∧
      hex_to_rgba "zzzzzz" 255 ≠ .ok (255, 255, 255, 255) := by
  constructor <;> decide

/-- Claim C6 (amended): `hex_to_rgba` never raises when the `'#'`-stripped
input does not have exactly 6 or 8 characters — those inputs all fall back to
opaque white with the given alpha; only 6- or 8-character payloads are parsed,
and there a non-hex character raises. -/
theorem c6_hex_fallback_white (s : String) (alpha : ℕ)
    (h6 : (hexStrip s).length ≠ 6) (h8 : (hexStrip s).length ≠ 8) :
    hex_to_rgba s alpha = .ok (255, 255, 255, alpha) := by
  unfold hex_to_rgba
  split
  · rfl
  · exact hexParse_other_lengths _ _ h6 h8

/-- Witness for `c6_hex_fallback_white` at the concrete malformed value
`"#abc"` (4 hex-looking characters, wrong length). -/
theorem c6_hex_fallback_white_witness :
    hex_to_rgba "#abc" 200 = .ok (255, 255, 255, 200) :=
  c6_hex_fallback_white "#abc" 200 (by decide) (by decide)

/-- An RGB triple, as used by `_create_gradient`'s color list. -/
abbrev Rgb := ℕ × ℕ × ℕ

/-- Parameters of a `shadow` style mapping (all keys optional, defaults are
applied at each access site exactly as in the source). -/
structure ShadowSpec where
  color : Option String := none
  opacity : Option ℚ := none
  offsetX : Option ℚ := none
  offsetY : Option ℚ := none
  blur : Option ℚ := none

/-- Parameters of a `glow` / `outer_glow` style mapping. -/
structure GlowSpec where
  color : Option String := none
  opacity : Option ℚ := none
  radius : Option ℚ := none
  intensity : Option ℚ := none

/-- Python truthiness of the glow mapping (`not style_glow`): an empty dict is
falsy. -/
def GlowSpec.isEmptyDict (g : GlowSpec) : Bool :=
  g.color.isNone && g.opacity.isNone && g.radius.isNone && g.intensity.isNone

/-- Parameters of the nested `gradient` mapping of an `outline` style.  The
`svg_coords`/`custom` and `type == 'radial'` branches of
`_apply_gradient_outline` only reassign the `angle` value, which
`_create_gradient` ignores whenever a direction string is passed (and one
always is on this path), so they are not carried here. -/
structure GradientSpec where
  colors : Option (List String) := none
  direction : Option String := none
  angle : Option ℚ := none

/-- Parameters of an `outline` style mapping. -/
structure OutlineSpec where
  color : Option String := none
  width : Option ℚ := none
  opacity : Option ℚ := none
  gradient : Option GradientSpec := none

/-- Parameters of an `inner_shadow` style mapping. -/
structure InnerShadowSpec where
  color : Option String := none
  opacity : Option ℚ := none
  offsetX : Option ℚ := none
  offsetY : Option ℚ := none
  blur : Option ℚ := none

/-- Python truthiness of the inner-shadow mapping. -/
def InnerShadowSpec.isEmptyDict (s : InnerShadowSpec) : Bool :=
  s.color.isNone && s.opacity.isNone && s.offsetX.isNone && s.offsetY.isNone && s.blur.isNone

/-- Parameters of a `fill` style mapping (the dictionary form used by
`apply_fill`; `ftype` is the dict's `type` entry). -/
structure FillSpec where
  ftype : Option String := none
  color : Option String := none
  colors : Option (List String) := none
  angle : Option ℚ := none
  direction : Option String := none
  opacity : Option ℚ := none

/-- Python float modulo with a positive modulus (`angle % 360`). -/
def qmod (q n : ℚ) : ℚ := q - n * ⌊q / n⌋

/-- Interpolated gradient channel: `int(c1 * (1 - t) + c2 * t)` followed by
PIL's byte cast of `draw.point` ink values. -/
def gradChan (a b : ℕ) (lt : ℚ) : ℕ :=
  clampByte (pyInt ((a : ℚ) * (1 - lt) + (b : ℚ) * lt))

/-- One pixel of `_create_gradient`'s per-pixel loop, given the gradient-line
endpoints: project the pixel on the gradient line, clamp the parameter to
`[0, 1]`, and interpolate piecewise-linearly through the color list.  Pixels
are only painted when the gradient line has positive length (otherwise the
canvas keeps its transparent initial value). -/
def gradPixel (colors : List Rgb) (x1 y1 x2 y2 : ℚ) (x y : ℤ) : RGBA :=
  let len2 := (x2 - x1) * (x2 - x1) + (y2 - y1) * (y2 - y1)
  if 0 < len2 then
    let t0 : ℚ :=
      if x2 ≠ x1 then
        let m := (y2 - y1) / (x2 - x1)
        let ix : ℚ :=
          if m ≠ 0 then
            let mPerp := -1 / m
            let bLine := y1 - m * x1
            let bPerp := (y : ℚ) - mPerp * (x : ℚ)
            (bPerp - bLine) / (m - mPerp)
          else (x : ℚ)
        (ix - x1) / (x2 - x1)
      else ((y : ℚ) - y1) / (y2 - y1)
    let t := max 0 (min 1 t0)
    let n := colors.length
    if 1 < n then
      let idx := (pyInt (t * ((n : ℚ) - 1))).toNat
      let nidx := min (idx + 1) (n - 1)
      let lt := t * ((n : ℚ) - 1) - idx
      let c1 := colors.getD idx (0, 0, 0)
      let c2 := colors.getD nidx (0, 0, 0)
      ⟨gradChan c1.1 c2.1 lt, gradChan c1.2.1 c2.2.1 lt, gradChan c1.2.2 c2.2.2 lt, 255⟩
    else
      let c := colors.getD 0 (0, 0, 0)
      ⟨c.1, c.2.1, c.2.2, 255⟩
  else clearPx

/-- Gradient-line endpoints for the eight named directions of
`_create_gradient` (the unnamed fallback is top-to-bottom). -/
def directionEndpoints (w h : ℕ) (d : String) : ℚ × ℚ × ℚ × ℚ :=
  if d = "left_right" then ((0 : ℚ), ((h / 2 : ℕ) : ℚ), (w : ℚ), ((h / 2 : ℕ) : ℚ))
  else if d = "right_left" then ((w : ℚ), ((h / 2 : ℕ) : ℚ), (0 : ℚ), ((h / 2 : ℕ) : ℚ))
  else if d = "top_bottom" then (((w / 2 : ℕ) : ℚ), (0 : ℚ), ((w / 2 : ℕ) : ℚ), (h : ℚ))
  else if d = "bottom_top" then (((w / 2 : ℕ) : ℚ), (h : ℚ), ((w / 2 : ℕ) : ℚ), (0 : ℚ))
  else if d = "diagonal" then ((0 : ℚ), (0 : ℚ), (w : ℚ), (h : ℚ))
  else if d = "diagonal_reverse" then ((w : ℚ), (h : ℚ), (0 : ℚ), (0 : ℚ))
  else if d = "diagonal_bottom" then ((0 : ℚ), (h : ℚ), (w : ℚ), (0 : ℚ))
  else if d = "diagonal_bottom_reverse" then ((w : ℚ), (0 : ℚ), (0 : ℚ), (h : ℚ))
  else (((w / 2 : ℕ) : ℚ), (0 : ℚ), ((w / 2 : ℕ) : ℚ), (h : ℚ))

/-- Model of `EffectsProcessor._create_gradient(width, height, colors, angle, direction)`.
`trig` stands for the raw-angle branch's endpoint computation
(`math.cos`/`math.sin`/`math.sqrt` on the normalized angle), an irrational
floating-point quantity kept abstract; every claim under test uses a named
direction, for which the endpoints are exact. -/
def createGradient (trig : ℚ → ℕ → ℕ → ℚ × ℚ × ℚ × ℚ) (w h : ℕ) (colors0 : List Rgb)
    (angle : ℚ) (direction : Option String) : Pix :=
  let colors := if colors0 = [] then [(238, 40, 131), (255, 220, 125)] else colors0
  let aNorm := let a1 := qmod angle 360; if 180 < a1 then a1 - 360 else a1
  let ep :=
    match direction with
    | some d => directionEndpoints w h d
    | none => trig aNorm w h
  fun x y => gradPixel colors ep.1 ep.2.1 ep.2.2.1 ep.2.2.2 x y

/-- Channelwise lift of the abstract Gaussian-blur primitive to RGBA images
(PIL's `GaussianBlur` filters each band independently). -/
def gblurPix (gblur : ℚ → Chan → Chan) (radius : ℚ) (im : Pix) : Pix :=
  fun x y =>
    ⟨gblur radius (fun a b => (im a b).r) x y,
     gblur radius (fun a b => (im a b).g) x y,
     gblur radius (fun a b => (im a b).b) x y,
     gblur radius (alphaOf im) x y⟩

/-- Model of `a.point(lambda x: int(x * opacity))` applied to the alpha band of an RGBA
image, followed by `Image.merge` with the untouched color bands. -/
def scaleAlpha (opacity : ℚ) (im : Pix) : Pix :=
  fun x y => { im x y with a := clampByte (pyInt (((im x y).a : ℚ) * opacity)) }

/-- Model of `EffectsProcessor.apply_shadow(img, style)`: colored, optionally blurred,
offset copy of the alpha mask, with the alpha band finally rescaled by the
opacity.  `.ok none` is the `return None` path; exceptions from
`hex_to_rgba` propagate (no `try` in the source). -/
def applyShadow (gblur : ℚ → Chan → Chan) (w h : ℕ) (img : Pix)
    (sh : Option ShadowSpec) : Except Unit (Option Pix) :=
  match sh with
  | none => .ok none
  | some s =>
    let opacity := s.opacity.getD 1
    let offX := s.offsetX.getD 5
    let offY := s.offsetY.getD 5
    let blur := s.blur.getD 5
    if opacity ≤ 0 then .ok none
    else
      match hex_to_rgba (s.color.getD "#000000") (pyInt (opacity * 255)).toNat with
      | .error e => .error e
      | .ok (r, g, b, a) =>
        let mask := alphaOf img
        let canvas0 := putalpha (constPix ⟨r, g, b, a⟩) mask
        let canvas := if 0 < blur then gblurPix gblur blur canvas0 else canvas0
        let pasted := pasteSoft w h transparentPix canvas (pyInt offX) (pyInt offY) (alphaOf canvas)
        .ok (some (scaleAlpha opacity pasted))

/-- Model of `EffectsProcessor.apply_outline(img, style)` (solid-color path): the input
image is returned unchanged when the outline is absent or its width is ≤ 0;
otherwise the mask is dilated `int(round(width))` times, a colored layer gets
the dilated mask as alpha, and — crucially — the original image is
alpha-composited ON TOP of that layer (no ring subtraction happens on this
path). -/
def applyOutline (w h : ℕ) (img : Pix) (ol : Option OutlineSpec) : Except Unit Pix :=
  match ol with
  | none => .ok img
  | some o =>
    let width := o.width.getD 1
    match hex_to_rgba (o.color.getD "#000000") 255 with
    | .error e => .error e
    | .ok (r, g, b, a) =>
      if width ≤ 0 then .ok img
      else
        let mask := alphaOf img
        let dilated := (maxFilter3 w h)^[(pyRound width).toNat] mask
        let outlineLayer := putalpha (constPix ⟨r, g, b, a⟩) dilated
        let outlineImg := alphaComposite transparentPix outlineLayer
        .ok (alphaComposite outlineImg img)

/-- Angle derived from the outline gradient's named direction (the `else`
branch falls back to the gradient's own `angle` entry). -/
def outlineGradientAngle (g : GradientSpec) (direction : String) : ℚ :=
  if direction = "left_right" then 0
  else if direction = "right_left" then 180
  else if direction = "top_bottom" then 90
  else if direction = "bottom_top" then 270
  else if direction = "diagonal" then 45
  else if direction = "diagonal_reverse" then 225
  else if direction = "diagonal_bottom" then 315
  else if direction = "diagonal_bottom_reverse" then 135
  else g.angle.getD 0

/-- Model of `EffectsProcessor._apply_gradient_outline(img, style)`: dilate the mask
`int(width)` times, subtract the original mask (uint8 arithmetic) to keep only
the ring, optionally rescale the ring by the opacity, and stamp a gradient
through it.  Exceptions from parsing the gradient colors propagate (no `try`).
When the outline mapping has no nested `gradient` dict the source reuses the
outline mapping itself; the compositor only calls this builder when `gradient`
is present, so the `getD` default mirrors an absent-entry dict. -/
def applyGradientOutline (trig : ℚ → ℕ → ℕ → ℚ × ℚ × ℚ × ℚ) (w h : ℕ) (img : Pix)
    (ol : Option OutlineSpec) : Except Unit Pix :=
  let od := ol.getD {}
  let opacity := od.opacity.getD 1
  let width := od.width.getD 0
  let g := od.gradient.getD {}
  let hexColors := g.colors.getD ["#EE2883", "#FFDC7D"]
  let direction := g.direction.getD "left_right"
  let angle := outlineGradientAngle g direction
  let mask := alphaOf img
  let dilated := (maxFilter3 w h)^[(pyInt width).toNat] mask
  let outlineOnly : Chan := fun x y => u8sub (dilated x y) (mask x y)
  match hexColors.mapM (fun c => (hex_to_rgba c 255).map rgbOf) with
  | .error e => .error e
  | .ok rgbColors =>
    let rgbColors := if rgbColors = [] then [(238, 40, 131), (255, 220, 125)] else rgbColors
    let grad := createGradient trig w h rgbColors angle (some direction)
    let outlineMasked :=
      if opacity < 1 then pointChan (fun v => pyInt ((v : ℚ) * opacity)) outlineOnly
      else outlineOnly
    .ok (putalpha grad outlineMasked)

/-- Model of `EffectsProcessor.apply_glow(img, style)`: `outer_glow` takes precedence
over `glow`; opacity/intensity values above 1 are divided by 100; the layer is
the blurred (unoffset) alpha mask scaled by `opacity * intensity` and tinted
with the glow color.  The whole body is inside `try/except: return None`. -/
def applyGlow (gblur : ℚ → Chan → Chan) (w h : ℕ) (img : Pix)
    (glow outerGlow : Option GlowSpec) : Option Pix :=
  let sg : GlowSpec :=
    match outerGlow, glow with
    | some og, _ => og
    | none, some gl => gl
    | none, none => {}
  if sg.isEmptyDict ∨ sg.opacity.getD 0 ≤ 0 then none
  else
    let op0 := sg.opacity.getD 80
    let op := if op0 ≤ 1 then op0 else op0 / 100
    let radius := pyInt (sg.radius.getD 10)
    let it0 := sg.intensity.getD 100
    let it := if it0 ≤ 1 then it0 else it0 / 100
    match hex_to_rgba (sg.color.getD "#ffffff") 255 with
    | .error _ => none
    | .ok (r, g, b, _) =>
      let blurred := gblur (radius : ℚ) (alphaOf img)
      let eff := op * it
      let gmask := pointChan (fun v => min (pyInt ((v : ℚ) * eff)) 255) blurred
      some (putalpha (constPix ⟨r, g, b, 0⟩) gmask)

/-- Model of `ImageStat.Stat(image).mean[0]` rounded with `int(mean + 0.5)`, as used by
`ImageEnhance.Contrast` (exact rational mean of the `w × h` grid). -/
def imageMean (w h : ℕ) (m : Chan) : ℕ :=
  let total := ∑ y ∈ Finset.range h, ∑ x ∈ Finset.range w, m (x : ℤ) (y : ℤ)
  (2 * total + w * h) / (2 * (w * h))

/-- Model of `ImageEnhance.Contrast(mask).enhance(1.5)`: `Image.blend(degenerate, mask,
1.5)` where `degenerate` is the constant mean image; factor > 1 takes Pillow's
extrapolation branch, which clips to `[0, 255]` and truncates. -/
def contrastEnhance (w h : ℕ) (m : Chan) : Chan :=
  let mean := imageMean w h m
  fun x y =>
    let temp : ℚ := (mean : ℚ) + 3 / 2 * ((m x y : ℚ) - (mean : ℚ))
    if temp ≤ 0 then 0
    else if 255 ≤ temp then 255
    else (pyInt temp).toNat

/-- Model of `EffectsProcessor.apply_inner_shadow(img, style)`: the alpha mask is pasted
back shifted by `(-offset_x, -offset_y)`, subtracted from itself in normalized
float arithmetic, multiplied by the source mask (confinement), contrast
enhanced and rescaled by the opacity (blur is forcibly skipped by the source).
The whole body is inside `try/except: return None`.  The numpy float32
pipeline is modelled by exact rational arithmetic. -/
def applyInnerShadow (w h : ℕ) (img : Pix) (isp : Option InnerShadowSpec) : Option Pix :=
  let sp := isp.getD {}
  if sp.isEmptyDict ∨ sp.opacity.getD 0 ≤ 0 then none
  else
    let op0 := sp.opacity.getD 50
    let op := if op0 ≤ 1 then op0 else op0 / 100
    let offX := sp.offsetX.getD 2
    let offY := sp.offsetY.getD 2
    match hex_to_rgba (sp.color.getD "#000000") 255 with
    | .error _ => none
    | .ok (r, g, b, _) =>
      let source := alphaOf img
      let offsetA := pasteChan w h (fun _ _ => 0) source (pyInt (-offX)) (pyInt (-offY))
      let band : Chan := fun x y => (source x y - offsetA x y) * source x y / 255
      let withOpacity :=
        if 0 < op then pointChan (fun v => pyInt ((v : ℚ) * op)) (contrastEnhance w h band)
        else band
      some (putalpha (constPix ⟨r, g, b, 0⟩) withOpacity)

/-- The list of `fill` type strings that select the gradient branch of
`apply_fill`. -/
def gradientTypeNames : List String := ["gradient", "linear", "radial"]

/-- Model of `EffectsProcessor.apply_fill(img, style)`: a binary mask is built from the
text alpha; a present `fill` dict selects either the gradient branch or the
solid branch, and an ABSENT `fill` key still paints opaque white through the
binary mask.  The body is inside `try/except: return None`, which converts hex
parse errors into `none`. -/
def applyFill (trig : ℚ → ℕ → ℕ → ℚ × ℚ × ℚ × ℚ) (w h : ℕ) (img : Pix)
    (fill : Option FillSpec) : Option Pix :=
  let textMask := alphaOf img
  let binaryStored : Chan := fun x y => blendByte (textMask x y) 0 255
  let res : Except Unit Pix :=
    match fill with
    | none =>
      .ok (pasteBinary w h transparentPix (constPix ⟨255, 255, 255, 255⟩) 0 0 binaryStored)
    | some f =>
      if f.ftype.getD "" ∈ gradientTypeNames then
        match (f.colors.getD ["#FFFFFF", "#0066FF"]).mapM
            (fun c => (hex_to_rgba c 255).map rgbOf) with
        | .error e => .error e
        | .ok rgbColors0 =>
          let rgbColors := if rgbColors0 = [] then [(255, 255, 255), (0, 102, 255)] else rgbColors0
          let angle := f.angle.getD 90
          let grad := createGradient trig w h rgbColors angle f.direction
          let masked := pasteSoft w h transparentPix grad 0 0 textMask
          let op := f.opacity.getD 1
          .ok (if op < 1 then scaleAlpha op masked else masked)
      else
        match hex_to_rgba (f.color.getD "#4096FF") 255 with
        | .error e => .error e
        | .ok (r, g, b, _) =>
          let fillRgba := pasteBinary w h transparentPix (constPix ⟨r, g, b, 255⟩) 0 0 binaryStored
          let op := f.opacity.getD 1
          .ok (if op < 1 then scaleAlpha op fillRgba else fillRgba)
  res.toOption

/-- The five effect names dispatched by `apply_all_effects`'s loop. -/
inductive EffectName
  | shadow
  | glow
  | fill
  | outline
  | innerShadow
deriving DecidableEq, Repr

/-- Guard for appending `'shadow'` to `effects_order`:
`'shadow' in style and style.get('shadow', {}).get('opacity', 0) > 0`. -/
def shadowGuard (sh : Option ShadowSpec) : Bool :=
  match sh with
  | some s => decide (0 < s.opacity.getD 0)
  | none => false

/-- Guard for appending `'glow'` (only the `glow` key is consulted here, even
though `apply_glow` itself prefers `outer_glow`). -/
def glowGuard (g : Option GlowSpec) : Bool :=
  match g with
  | some s => decide (0 < s.opacity.getD 0)
  | none => false

/-- Guard for appending `'outline'`: width and opacity must both be positive. -/
def outlineGuard (ol : Option OutlineSpec) : Bool :=
  match ol with
  | some o => decide (0 < o.width.getD 0) && decide (0 < o.opacity.getD 0)
  | none => false

/-- Guard for appending `'inner_shadow'`. -/
def innerGuard (isp : Option InnerShadowSpec) : Bool :=
  match isp with
  | some s => decide (0 < s.opacity.getD 0)
  | none => false

/-- The `effects_order` list built by `apply_all_effects`: shadow, glow, fill,
outline, inner shadow — in that construction order, with `'fill'` appended
unconditionally (`# 填充始终应用`). -/
def effectsOrder (sh : Option ShadowSpec) (g : Option GlowSpec) (ol : Option OutlineSpec)
    (isp : Option InnerShadowSpec) : List EffectName :=
  (if shadowGuard sh then [.shadow] else []) ++
    (if glowGuard g then [.glow] else []) ++
    [.fill] ++
    (if outlineGuard ol then [.outline] else []) ++
    (if innerGuard isp then [.innerShadow] else [])

/-- The alpha adjustment `inner_alpha.point(lambda x: min(x, 200))` that
`apply_all_effects` applies to the inner-shadow layer before compositing it. -/
def innerAdjust (l : Pix) : Pix :=
  fun x y => { l x y with a := min ((l x y).a) 200 }

/-- One iteration of the `for effect_name in effects_order` loop of
`apply_all_effects`: build the effect's layer and alpha-composite it onto the
running canvas when it is non-`None` (the outline branch first pastes the base
image through its own mask, and the inner-shadow branch clamps the layer's
alpha to 200). -/
def stepEffect (gblur : ℚ → Chan → Chan) (trig : ℚ → ℕ → ℕ → ℚ × ℚ × ℚ × ℚ)
    (w h : ℕ) (img : Pix) (textMask : Chan)
    (sh : Option ShadowSpec) (g og : Option GlowSpec) (fi : Option FillSpec)
    (ol : Option OutlineSpec) (isp : Option InnerShadowSpec)
    (acc : Pix) : EffectName → Except Unit Pix
  | .shadow =>
    match applyShadow gblur w h img sh with
    | .error e => .error e
    | .ok (some l) => .ok (alphaComposite acc l)
    | .ok none => .ok acc
  | .glow =>
    match applyGlow gblur w h img g og with
    | some l => .ok (alphaComposite acc l)
    | none => .ok acc
  | .fill =>
    match applyFill trig w h img fi with
    | some l => .ok (alphaComposite acc l)
    | none => .ok acc
  | .outline =>
    let outlineBase := pasteSoft w h transparentPix img 0 0 textMask
    match
      (if (ol.getD {}).gradient.isSome then applyGradientOutline trig w h outlineBase ol
       else applyOutline w h outlineBase ol) with
    | .error e => .error e
    | .ok l => .ok (alphaComposite acc l)
  | .innerShadow =>
    match applyInnerShadow w h img isp with
    | some l => .ok (alphaComposite acc (innerAdjust l))
    | none => .ok acc

/-- Model of `EffectsProcessor.apply_all_effects(base_img, style)` (the returned
`result` image): fold the per-effect loop over `effects_order`, starting from
a fully transparent canvas.  The style dictionary is passed as its six
relevant keys. -/
def apply_all_effects (gblur : ℚ → Chan → Chan) (trig : ℚ → ℕ → ℕ → ℚ × ℚ × ℚ × ℚ)
    (w h : ℕ) (baseImg : Pix)
    (sh : Option ShadowSpec) (g og : Option GlowSpec) (fi : Option FillSpec)
    (ol : Option OutlineSpec) (isp : Option InnerShadowSpec) : Except Unit Pix :=
  let textMask := alphaOf baseImg
  (effectsOrder sh g ol isp).foldlM
    (stepEffect gblur trig w h baseImg textMask sh g og fi ol isp) transparentPix

/-- The compositing algorithm exactly as the specification describes it:
start from a fully transparent canvas and, in the fixed bottom-to-top order
shadow → glow → fill → outline → inner shadow, alpha-composite each effect's
layer when its guard is met and its builder produced one (with the
inner-shadow alpha clamp applied before compositing). -/
def orderedCompose (gblur : ℚ → Chan → Chan) (trig : ℚ → ℕ → ℕ → ℚ × ℚ × ℚ × ℚ)
    (w h : ℕ) (baseImg : Pix)
    (sh : Option ShadowSpec) (g og : Option GlowSpec) (fi : Option FillSpec)
    (ol : Option OutlineSpec) (isp : Option InnerShadowSpec) : Except Unit Pix :=
  let textMask := alphaOf baseImg
  let afterShadow : Except Unit Pix :=
    if shadowGuard sh then
      match applyShadow gblur w h baseImg sh with
      | .error e => .error e
      | .ok (some l) => .ok (alphaComposite transparentPix l)
      | .ok none => .ok transparentPix
    else .ok transparentPix
  match afterShadow with
  | .error e => .error e
  | .ok c1 =>
    let c2 :=
      if glowGuard g then
        match applyGlow gblur w h baseImg g og with
        | some l => alphaComposite c1 l
        | none => c1
      else c1
    let c3 :=
      match applyFill trig w h baseImg fi with
      | some l => alphaComposite c2 l
      | none => c2
    let afterOutline : Except Unit Pix :=
      if outlineGuard ol then
        let outlineBase := pasteSoft w h transparentPix baseImg 0 0 textMask
        match
          (if (ol.getD {}).gradient.isSome then applyGradientOutline trig w h outlineBase ol
           else applyOutline w h outlineBase ol) with
        | .error e => .error e
        | .ok l => .ok (alphaComposite c3 l)
      else .ok c3
    match afterOutline with
    | .error e => .error e
    | .ok c4 =>
      .ok
        (if innerGuard isp then
          match applyInnerShadow w h baseImg isp with
          | some l => alphaComposite c4 (innerAdjust l)
          | none => c4
        else c4)

/-- Claim C2: for every input image and style, the compositor starts from a
fully transparent canvas and alpha-composites every builder-produced
non-`None` layer in the fixed bottom-to-top order shadow → glow → fill →
outline → inner shadow; effects whose guards are unmet contribute nothing and
do not disturb the ordering of the rest (the inner-shadow layer is composited
after its documented alpha clamp). -/
theorem c2_compose_order (gblur : ℚ → Chan → Chan) (trig : ℚ → ℕ → ℕ → ℚ × ℚ × ℚ × ℚ)
    (w h : ℕ) (baseImg : Pix)
    (sh : Option ShadowSpec) (g og : Option GlowSpec) (fi : Option FillSpec)
    (ol : Option OutlineSpec) (isp : Option InnerShadowSpec) :
    apply_all_effects gblur trig w h baseImg sh g og fi ol isp =
      orderedCompose gblur trig w h baseImg sh g og fi ol isp := by
  unfold apply_all_effects orderedCompose effectsOrder
  cases hs : shadowGuard sh <;> cases hg : glowGuard g <;>
    cases ho : outlineGuard ol <;> cases hi : innerGuard isp <;>
      simp only [Bool.false_eq_true, if_true, if_false, ite_true, ite_false,
        List.nil_append, List.cons_append, List.append_nil, List.foldlM, stepEffect]
  all_goals rcases applyShadow gblur w h baseImg sh with e | _ | l
  all_goals rcases applyGlow gblur w h baseImg g og with _ | l2
  all_goals rcases applyFill trig w h baseImg fi with _ | l3
  all_goals rcases
    (if (ol.getD {}).gradient.isSome then
        applyGradientOutline trig w h (pasteSoft w h transparentPix baseImg 0 0 (alphaOf baseImg)) ol
      else applyOutline w h (pasteSoft w h transparentPix baseImg 0 0 (alphaOf baseImg)) ol)
    with e2 | l4
  all_goals rcases applyInnerShadow w h baseImg isp with _ | l5
  all_goals rfl

/-- Claim C7: the compositor's output for a style whose `shadow` key has
opacity 0 is identical to its output for the same style with the `shadow` key
removed entirely (the guard drops the effect, and no other builder reads the
`shadow` key). -/
theorem c7_shadow_zero_opacity_idempotent (gblur : ℚ → Chan → Chan)
    (trig : ℚ → ℕ → ℕ → ℚ × ℚ × ℚ × ℚ) (w h : ℕ) (baseImg : Pix)
    (c : Option String) (ox oy bl : Option ℚ)
    (g og : Option GlowSpec) (fi : Option FillSpec)
    (ol : Option OutlineSpec) (isp : Option InnerShadowSpec) :
    apply_all_effects gblur trig w h baseImg (some ⟨c, some 0, ox, oy, bl⟩) g og fi ol isp =
      apply_all_effects gblur trig w h baseImg none g og fi ol isp := by
  have hsg : shadowGuard (some ⟨c, some 0, ox, oy, bl⟩) = false := by
    simp [shadowGuard]
  unfold apply_all_effects effectsOrder
  rw [hsg]
  cases hg : glowGuard g <;> cases ho : outlineGuard ol <;> cases hi : innerGuard isp <;>
      simp only [Bool.false_eq_true, if_true, if_false, ite_true, ite_false,
        List.nil_append, List.cons_append, List.append_nil, List.foldlM, stepEffect]

/-- Claim C10: before compositing, the inner-shadow layer's alpha channel `a`
is replaced pixelwise by `min(a, 200)` (the `innerAdjust` step of the
compositor), so the composited inner-shadow contribution never carries an
alpha above 200. -/
theorem c10_inner_alpha_clamp (l : Pix) (x y : ℤ) :
    innerAdjust l x y = ⟨(l x y).r, (l x y).g, (l x y).b, min ((l x y).a) 200⟩ ∧
      (innerAdjust l x y).a ≤ 200 :=
  ⟨rfl, Nat.min_le_right _ _⟩

theorem contrastEnhance_zero (w h : ℕ) (m : Chan) (x y : ℤ) (hm : m x y = 0) :
    contrastEnhance w h m x y = 0 := by
  simp only [contrastEnhance, hm]
  rw [if_pos]
  have hmean : (0 : ℚ) ≤ (imageMean w h m : ℚ) := by positivity
  push_cast
  linarith

theorem pyInt_zero : pyInt 0 = 0 := by
  unfold pyInt
  simp

theorem iteChanZero (C : Prop) [Decidable C] (F G : Chan) (x y : ℤ)
    (hF : F x y = 0) (hG : G x y = 0) : (if C then F else G) x y = 0 := by
  split <;> assumption

/-- Claim C4: the inner-shadow builder's layer has zero alpha at every pixel
where the original text-alpha mask is zero — the band mask is confined to the
original glyph silhouette at every pixel, for every style and input image. -/
theorem c4_inner_shadow_inside_glyph (w h : ℕ) (img : Pix) (isp : Option InnerShadowSpec)
    (x y : ℤ) (ha : (img x y).a = 0) (l : Pix)
    (hl : applyInnerShadow w h img isp = some l) :
    (l x y).a = 0 := by
  have hband : ∀ o : Chan,
      (alphaOf img x y - o x y) * alphaOf img x y / 255 = 0 := by
    intro o
    unfold alphaOf
    rw [ha]
    simp
  simp only [applyInnerShadow] at hl
  split at hl
  · exact absurd hl (by simp)
  · split at hl
    · exact absurd hl (by simp)
    · obtain rfl : _ = l := Option.some.inj hl
      simp only [putalpha]
      refine iteChanZero _ _ _ x y ?_ (hband _)
      simp only [pointChan]
      rw [contrastEnhance_zero _ _ _ x y (hband _)]
      simp [pyInt, clampByte]

/-- A 1-pixel glyph in the top-left corner of a canvas, used as a concrete
text-alpha mask by the witnesses. -/
def dotImg : Pix := fun x y => if x = 0 ∧ y = 0 then ⟨0, 0, 0, 255⟩ else clearPx

/-- A concrete active inner-shadow style mapping. -/
def innerDemo : InnerShadowSpec :=
  ⟨some "#112233", some (1 / 2), some 1, some 1, some 0⟩

/-- Witness for `c4_inner_shadow_inside_glyph`: on a 1×2 canvas whose glyph is
the single pixel (0,0), the built inner-shadow layer has alpha 0 at the
mask-empty pixel (0,1). -/
theorem c4_inner_shadow_inside_glyph_witness :
    (applyInnerShadow 1 2 dotImg (some innerDemo)).map (fun p => (p 0 1).a) = some 0 := by
  rcases hA : applyInnerShadow 1 2 dotImg (some innerDemo) with _ | l
  · have hsome : (applyInnerShadow 1 2 dotImg (some innerDemo)).isSome = true := by decide
    rw [hA] at hsome
    exact absurd hsome (by simp)
  · exact congrArg some
      (c4_inner_shadow_inside_glyph 1 2 dotImg (some innerDemo) 0 1 (by decide) l hA)

/-- Identity stand-in for the abstract Gaussian-blur parameter, used by the
concrete witnesses (any other kernel works equally for the theorems, which
quantify over `gblur`). -/
def idBlur : ℚ → Chan → Chan := fun _ m => m

/-- The opacity/intensity auto-normalization of `apply_glow`: values above 1
are interpreted on a 0–100 scale. -/
def normalize01 (q : ℚ) : ℚ := if q ≤ 1 then q else q / 100

/-- Claim C5 (counterexample): the glow layer depends on opacity and intensity
only through their product — a glow with intensity 1 (> 0.6) and opacity 0.54
is byte-identical to a glow with intensity 0.54 (≤ 0.6) and opacity 1, so no
additional, stronger, less-blurred inner pass is ever added above the 0.6
intensity threshold. -/
theorem c5_glow_product_only_counterexample :
    (6 : ℚ) / 10 < 1 ∧ (27 / 50 : ℚ) ≤ 6 / 10 ∧
      applyGlow idBlur 1 1 dotImg (some ⟨some "#ffffff", some (27 / 50), some 2, some 1⟩) none =
        applyGlow idBlur 1 1 dotImg (some ⟨some "#ffffff", some 1, some 2, some (27 / 50)⟩) none :=
  ⟨by norm_num, by norm_num, rfl⟩

/-- Claim C5 (amended): for every active glow the layer is the Gaussian-blurred
unoffset text-alpha mask tinted with the glow color, with alpha
`min(int(blurred * opacity * intensity), 255)` — the product of the two
normalized factors, with no special treatment at any intensity threshold. -/
theorem c5_glow_single_pass (gblur : ℚ → Chan → Chan) (w h : ℕ) (img : Pix)
    (g : GlowSpec) (hne : g.isEmptyDict = false) (hop : 0 < g.opacity.getD 0)
    (r gc b a0 : ℕ) (hhex : hex_to_rgba (g.color.getD "#ffffff") 255 = .ok (r, gc, b, a0)) :
    applyGlow gblur w h img (some g) none =
      some (putalpha (constPix ⟨r, gc, b, 0⟩)
        (pointChan
          (fun v => min (pyInt ((v : ℚ) *
            (normalize01 (g.opacity.getD 80) * normalize01 (g.intensity.getD 100)))) 255)
          (gblur ((pyInt (g.radius.getD 10) : ℤ) : ℚ) (alphaOf img)))) := by
  unfold applyGlow
  rw [if_neg (by simp [hne]; linarith), hhex]
  rfl

/-- Witness for `c5_glow_single_pass` at a concrete active glow style. -/
theorem c5_glow_single_pass_witness :
    applyGlow idBlur 1 1 dotImg (some ⟨some "#ff8800", some (4 / 5), some 3, some 1⟩) none =
      some (putalpha (constPix ⟨255, 136, 0, 0⟩)
        (pointChan
          (fun v => min (pyInt ((v : ℚ) *
            (normalize01 ((4 : ℚ) / 5) * normalize01 1))) 255)
          (idBlur ((3 : ℤ) : ℚ) (alphaOf dotImg)))) := by
  have h := c5_glow_single_pass idBlur 1 1 dotImg
    ⟨some "#ff8800", some (4 / 5), some 3, some 1⟩ (by decide) (by norm_num)
    255 136 0 255 (by decide)
  simpa using h

theorem mulDiv255_le (a b : ℕ) (ha : a ≤ 255) (hb : b ≤ 255) : mulDiv255 a b ≤ 255 := by
  unfold mulDiv255 shiftForDiv255
  have hab : a * b ≤ 65025 := Nat.mul_le_mul ha hb
  omega

theorem maxFilter3_le (w h : ℕ) (m : Chan) (hm : ∀ x y, m x y ≤ 255) (x y : ℤ) :
    maxFilter3 w h m x y ≤ 255 := by
  unfold maxFilter3
  simp only [max_le_iff]
  refine ⟨⟨⟨hm _ _, hm _ _⟩, hm _ _, hm _ _⟩, ⟨hm _ _, hm _ _⟩, hm _ _, hm _ _, hm _ _⟩

theorem dilate_le (w h : ℕ) (m : Chan) (hm : ∀ x y, m x y ≤ 255) (k : ℕ) (x y : ℤ) :
    ((maxFilter3 w h)^[k] m) x y ≤ 255 := by
  induction k generalizing x y with
  | zero => exact hm x y
  | succ n ih =>
    rw [Function.iterate_succ_apply']
    exact maxFilter3_le w h _ (fun a b => ih a b) x y

theorem clampCoord_id (n : ℕ) (z : ℤ) (h1 : 0 ≤ z) (h2 : z < n) : clampCoord n z = z := by
  unfold clampCoord
  omega

theorem maxFilter3_ge_center (w h : ℕ) (m : Chan) (x y : ℤ)
    (hx : 0 ≤ x) (hx2 : x < w) (hy : 0 ≤ y) (hy2 : y < h) :
    m x y ≤ maxFilter3 w h m x y := by
  unfold maxFilter3
  have hcx : clampCoord w (x + 0) = x := by rw [add_zero]; exact clampCoord_id w x hx hx2
  have hcy : clampCoord h (y + 0) = y := by rw [add_zero]; exact clampCoord_id h y hy hy2
  have hme : m (clampCoord w (x + 0)) (clampCoord h (y + 0)) = m x y := by rw [hcx, hcy]
  rw [← hme]
  exact le_max_of_le_right (le_max_of_le_left (le_max_left _ _))

theorem dilate_ge_center (w h : ℕ) (m : Chan) (k : ℕ) (x y : ℤ)
    (hx : 0 ≤ x) (hx2 : x < w) (hy : 0 ≤ y) (hy2 : y < h) :
    m x y ≤ ((maxFilter3 w h)^[k] m) x y := by
  induction k with
  | zero => exact le_refl _
  | succ n ih =>
    rw [Function.iterate_succ_apply']
    exact le_trans ih (maxFilter3_ge_center w h _ x y hx hx2 hy hy2)

/-- Claim C3 (counterexample): the SOLID-color outline path does not respect
ring isolation — on a canvas whose glyph is the single fully opaque pixel
(0,0), the layer returned by `apply_outline` (width 1, opacity 1) has alpha
255, not 0, at that glyph-interior pixel, because the builder composites the
original image on top of the dilated colored shape instead of subtracting the
original mask. -/
theorem c3_solid_outline_covers_glyph :
    (dotImg 0 0).a = 255 ∧
      (applyOutline 3 3 dotImg (some ⟨some "#00ff00", some 1, some 1, none⟩)).map
          (fun p => (p 0 0).a) = .ok 255 := by
  constructor
  · decide
  · decide

/-- Claim C3 (amended): ring isolation holds on the GRADIENT outline path: at
every in-bounds pixel where the input image's alpha is fully opaque (255 — in
particular everywhere inside the glyph of a binary mask), the layer built by
`_apply_gradient_outline` has alpha exactly 0, for every style.  The
solid-color path violates the claim (see the counterexample), as its layer
carries the original image composited over the dilated shape. -/
theorem c3_gradient_outline_ring_disjoint (trig : ℚ → ℕ → ℕ → ℚ × ℚ × ℚ × ℚ)
    (w h : ℕ) (img : Pix) (ol : Option OutlineSpec)
    (himg : ∀ a b, (img a b).a ≤ 255) (x y : ℤ)
    (hx : 0 ≤ x) (hx2 : x < w) (hy : 0 ≤ y) (hy2 : y < h)
    (ha : (img x y).a = 255) (l : Pix)
    (hl : applyGradientOutline trig w h img ol = .ok l) :
    (l x y).a = 0 := by
  have hmask : ∀ a b, alphaOf img a b ≤ 255 := fun a b => himg a b
  have hdil :
      ∀ k, ((maxFilter3 w h)^[k] (alphaOf img)) x y = 255 := by
    intro k
    have h1 := dilate_le w h (alphaOf img) hmask k x y
    have h2 := dilate_ge_center w h (alphaOf img) k x y hx hx2 hy hy2
    have ha2 : alphaOf img x y = 255 := ha
    rw [ha2] at h2
    omega
  have hring :
      ∀ k, u8sub (((maxFilter3 w h)^[k] (alphaOf img)) x y) (alphaOf img x y) = 0 := by
    intro k
    rw [hdil k]
    have ha2 : alphaOf img x y = 255 := ha
    rw [ha2]
    decide
  simp only [applyGradientOutline] at hl
  split at hl
  · exact absurd hl (by simp)
  · obtain rfl : _ = l := Except.ok.inj hl
    simp only [putalpha]
    refine iteChanZero _ _ _ x y ?_ (hring _)
    simp only [pointChan]
    rw [hring]
    simp [pyInt, clampByte]

/-- Witness for `c3_gradient_outline_ring_disjoint`: a concrete gradient
outline on the 1-pixel glyph; the built layer has alpha 0 at the glyph pixel. -/
theorem c3_gradient_outline_ring_disjoint_witness :
    (applyGradientOutline (fun _ _ _ => (0, 0, 0, 0)) 3 3 dotImg
        (some ⟨none, some 1, some 1,
          some ⟨some ["#ff0000", "#00ff00"], some "left_right", none⟩⟩)).map
        (fun p => (p 0 0).a) = .ok 0 := by
  rcases hA : applyGradientOutline (fun _ _ _ => (0, 0, 0, 0)) 3 3 dotImg
      (some ⟨none, some 1, some 1,
        some ⟨some ["#ff0000", "#00ff00"], some "left_right", none⟩⟩) with e | l
  · have hok : (applyGradientOutline (fun _ _ _ => ((0 : ℚ), (0 : ℚ), (0 : ℚ), (0 : ℚ))) 3 3 dotImg
        (some ⟨none, some 1, some 1,
          some ⟨some ["#ff0000", "#00ff00"], some "left_right", none⟩⟩)).isOk = true := by decide
    rw [hA] at hok
    exact absurd hok (by simp [Except.isOk, Except.toBool])
  · exact congrArg Except.ok
      (c3_gradient_outline_ring_disjoint _ 3 3 dotImg _ (fun a b => by
          unfold dotImg
          split <;> simp [clearPx])
        0 0 (by norm_num) (by norm_num) (by norm_num) (by norm_num) (by decide) l hA)

/-- Constant stand-in for the abstract raw-angle endpoint computation, used by
the concrete witnesses. -/
def idTrig : ℚ → ℕ → ℕ → ℚ × ℚ × ℚ × ℚ := fun _ _ _ => (0, 0, 0, 0)

theorem mulDiv255_255_id (a : ℕ) (ha : a ≤ 255) : mulDiv255 255 a = a := by
  unfold mulDiv255 shiftForDiv255
  omega

theorem blendByte_zero_255 (a : ℕ) (ha : a ≤ 255) : blendByte a 0 255 = a := by
  unfold blendByte
  rw [mulDiv255_255_id a ha]
  unfold mulDiv255 shiftForDiv255
  omega
set_option maxRecDepth 10000 in
/-- Claim C1 (counterexample): an all-absent style does NOT yield a fully
transparent canvas — with no `fill` key, `effects_order` still contains
`'fill'` and `apply_fill` paints opaque white through the binary text mask, so
the glyph pixel of the output is opaque white. -/
theorem c1_fill_always_counterexample :
    (apply_all_effects idBlur idTrig 1 1 dotImg none none none none none none).map
        (fun p => p 0 0) = .ok ⟨255, 255, 255, 255⟩ ∧
      (⟨255, 255, 255, 255⟩ : RGBA) ≠ clearPx := by
  constructor
  · rfl
  · decide

/-- Claim C1 (amended): absence of a key skips the effect for shadow, glow,
outline and inner shadow, but the fill stage is unconditional: for a style
with no keys at all, the compositor returns opaque white at every in-bounds
pixel where the text alpha is nonzero and transparent elsewhere — a fully
transparent canvas only when the text mask is empty, not for every input. -/
theorem c1_empty_style_white_fill (gblur : ℚ → Chan → Chan)
    (trig : ℚ → ℕ → ℕ → ℚ × ℚ × ℚ × ℚ) (w h : ℕ) (img : Pix)
    (himg : ∀ a b, (img a b).a ≤ 255) (x y : ℤ)
    (hx : 0 ≤ x) (hx2 : x < w) (hy : 0 ≤ y) (hy2 : y < h) :
    (apply_all_effects gblur trig w h img none none none none none none).map (fun p => p x y) =
      .ok (if (img x y).a ≠ 0 then ⟨255, 255, 255, 255⟩ else clearPx) := by
  have hbs : blendByte (alphaOf img x y) 0 255 = (img x y).a :=
    blendByte_zero_255 ((img x y).a) (himg x y)
  have hin : inCanvas w h x y = true := by
    unfold inCanvas
    simp only [Bool.and_eq_true, decide_eq_true_eq]
    exact ⟨⟨⟨hx, hx2⟩, hy⟩, hy2⟩
  show (Except.ok (alphaComposite transparentPix
        (pasteBinary w h transparentPix (constPix ⟨255, 255, 255, 255⟩) 0 0
          (fun a b => blendByte (alphaOf img a b) 0 255)))).map (fun p => p x y) = _
  simp only [Except.map]
  unfold alphaComposite pasteBinary
  simp only [sub_zero]
  by_cases hA : (img x y).a = 0
  · rw [if_neg (fun hc => hc.2 (by rw [hbs]; exact hA)), if_neg (by simpa using hA)]
    rfl
  · rw [if_pos ⟨hin, by rw [hbs]; exact hA⟩, if_pos (by simpa using hA)]
    show Except.ok (alphaCompositePx clearPx ⟨255, 255, 255, 255⟩) = Except.ok ⟨255, 255, 255, 255⟩
    decide

/-- Witness for `c1_empty_style_white_fill` on the one-pixel glyph. -/
theorem c1_empty_style_white_fill_witness :
    (apply_all_effects idBlur idTrig 2 2 dotImg none none none none none none).map
        (fun p => p 1 1) = .ok clearPx := by
  have h := c1_empty_style_white_fill idBlur idTrig 2 2 dotImg
    (fun a b => by unfold dotImg; split <;> simp [clearPx]) 1 1
    (by norm_num) (by norm_num) (by norm_num) (by norm_num)
  simpa using h

theorem pyInt_natCast (a : ℕ) : pyInt (a : ℚ) = a := by
  unfold pyInt
  rw [if_pos (by positivity), Int.floor_natCast]

theorem pyInt_nat_div (n d : ℕ) : pyInt ((n : ℚ) / (d : ℚ)) = ((n / d : ℕ) : ℤ) := by
  have hnn : (0 : ℚ) ≤ (n : ℚ) / (d : ℚ) := by positivity
  unfold pyInt
  rw [if_pos hnn, ← Int.natCast_floor_eq_floor hnn, Nat.floor_div_eq_div]

theorem clampByte_of_le (a : ℕ) (ha : a ≤ 255) : clampByte ((a : ℕ) : ℤ) = a := by
  unfold clampByte
  omega

theorem gradChan_zero (a b : ℕ) (ha : a ≤ 255) : gradChan a b 0 = a := by
  unfold gradChan
  have harg : ((a : ℚ) * (1 - 0) + (b : ℚ) * 0) = ((a : ℕ) : ℚ) := by ring
  rw [harg, pyInt_natCast, clampByte_of_le a ha]

theorem gradChan_last (a b w : ℕ) (hw : 1 ≤ w) (ha : a ≤ 255) (hb : b ≤ 255) :
    gradChan a b (((w : ℚ) - 1) / w) = (a + (w - 1) * b) / w := by
  unfold gradChan
  have hw0 : (0 : ℚ) < (w : ℚ) := by exact_mod_cast hw
  have harg : (a : ℚ) * (1 - ((w : ℚ) - 1) / w) + (b : ℚ) * (((w : ℚ) - 1) / w) =
      ((a + (w - 1) * b : ℕ) : ℚ) / (w : ℚ) := by
    have hcast : ((w - 1 : ℕ) : ℚ) = (w : ℚ) - 1 := by
      push_cast [hw]
      ring
    push_cast [hcast]
    field_simp
    ring
  rw [harg, pyInt_nat_div, clampByte_of_le]
  have hmul : (w - 1) * b ≤ (w - 1) * 255 := Nat.mul_le_mul_left _ hb
  have hbound : a + (w - 1) * b ≤ 255 * w := by omega
  exact Nat.div_le_of_le_mul (by omega)

theorem createGradient_left_right (trig : ℚ → ℕ → ℕ → ℚ × ℚ × ℚ × ℚ) (w h : ℕ)
    (c0 c1 : Rgb) (x y : ℤ) :
    createGradient trig w h [c0, c1] 0 (some "left_right") x y =
      gradPixel [c0, c1] 0 ((h / 2 : ℕ) : ℚ) (w : ℚ) ((h / 2 : ℕ) : ℚ) x y := by
  simp only [createGradient, directionEndpoints]
  rw [if_neg (by simp : ¬([c0, c1] = ([] : List Rgb)))]
  norm_num

theorem gradPixel_horizontal (c0 c1 : Rgb) (wq h2 : ℚ) (x y : ℤ)
    (hx : (0 : ℚ) ≤ (x : ℚ)) (hxw : (x : ℚ) < wq) :
    gradPixel [c0, c1] 0 h2 wq h2 x y =
      ⟨gradChan c0.1 c1.1 ((x : ℚ) / wq), gradChan c0.2.1 c1.2.1 ((x : ℚ) / wq),
        gradChan c0.2.2 c1.2.2 ((x : ℚ) / wq), 255⟩ := by
  have hw0 : (0 : ℚ) < wq := lt_of_le_of_lt hx hxw
  have ht0 : (0 : ℚ) ≤ (x : ℚ) / wq := by positivity
  have ht1 : (x : ℚ) / wq < 1 := by
    rw [div_lt_one hw0]
    exact hxw
  have hidx : pyInt ((x : ℚ) / wq) = 0 := by
    unfold pyInt
    rw [if_pos ht0]
    exact Int.floor_eq_zero_iff.mpr ⟨ht0, ht1⟩
  simp only [gradPixel, sub_self, sub_zero, mul_zero, zero_mul, add_zero, zero_div, ne_eq,
    List.length_cons, List.length_nil]
  rw [if_pos (by positivity : (0 : ℚ) < wq * wq)]
  rw [if_pos (ne_of_gt hw0)]
  rw [if_pos (by norm_num : 1 < 0 + 1 + 1)]
  rw [if_neg (fun hc => hc trivial)]
  rw [min_eq_right (le_of_lt ht1), max_eq_right ht0]
  norm_num [hidx, List.getD]

/-- Claim C8 (counterexample): with the `left_right` direction on a 2-pixel-wide
canvas from black to white, the rightmost column is the exact midpoint
(127,127,127) — off from the second color by 128, far beyond interpolation
rounding — because column `x` samples the gradient at `t = x / w`, one full
step short of `t = 1`. -/
theorem c8_gradient_rightmost_counterexample :
    createGradient idTrig 2 1 [(0, 0, 0), (255, 255, 255)] 0 (some "left_right") 1 0 =
        ⟨127, 127, 127, 255⟩ ∧
      (⟨127, 127, 127, 255⟩ : RGBA) ≠ ⟨255, 255, 255, 255⟩ := by
  constructor
  · rfl
  · decide

/-- Claim C8 (amended): for a two-color `left_right` gradient on a `w × h`
canvas, every pixel of the leftmost column equals `c0` exactly, while every
pixel of the rightmost column equals the truncated interpolation at
`t = (w-1)/w`, i.e. channel value `(c0 + (w-1)·c1) / w` — which differs from
`c1` by up to one interpolation step `⌈(c1-c0)/w⌉`, not merely by rounding;
moreover an angle of 0 passed as a raw angle (rather than the `left_right`
direction) spans the canvas diagonal, so there even the leftmost column is
interpolated. -/
theorem c8_gradient_endpoints (trig : ℚ → ℕ → ℕ → ℚ × ℚ × ℚ × ℚ) (w h : ℕ)
    (hw : 1 ≤ w) (c0 c1 : Rgb)
    (h0r : c0.1 ≤ 255) (h0g : c0.2.1 ≤ 255) (h0b : c0.2.2 ≤ 255)
    (h1r : c1.1 ≤ 255) (h1g : c1.2.1 ≤ 255) (h1b : c1.2.2 ≤ 255) (y : ℤ) :
    createGradient trig w h [c0, c1] 0 (some "left_right") 0 y =
        ⟨c0.1, c0.2.1, c0.2.2, 255⟩ ∧
      createGradient trig w h [c0, c1] 0 (some "left_right") ((w : ℤ) - 1) y =
        ⟨(c0.1 + (w - 1) * c1.1) / w, (c0.2.1 + (w - 1) * c1.2.1) / w,
          (c0.2.2 + (w - 1) * c1.2.2) / w, 255⟩ := by
  have hw0 : (0 : ℚ) < (w : ℚ) := by exact_mod_cast hw
  constructor
  · rw [createGradient_left_right]
    rw [gradPixel_horizontal c0 c1 (w : ℚ) _ 0 y (by norm_num) (by norm_num [hw0])]
    simp only [Int.cast_zero, zero_div]
    rw [gradChan_zero _ _ h0r, gradChan_zero _ _ h0g, gradChan_zero _ _ h0b]
  · rw [createGradient_left_right]
    rw [gradPixel_horizontal c0 c1 (w : ℚ) _ ((w : ℤ) - 1) y
      (by push_cast; linarith [hw0, (by exact_mod_cast hw : (1 : ℚ) ≤ (w : ℚ))])
      (by push_cast; linarith)]
    have hcastx : (((w : ℤ) - 1 : ℤ) : ℚ) = (w : ℚ) - 1 := by push_cast; ring
    rw [hcastx]
    rw [gradChan_last _ _ w hw h0r h1r, gradChan_last _ _ w hw h0g h1g,
      gradChan_last _ _ w hw h0b h1b]

/-- Witness for `c8_gradient_endpoints` on a 4×1 canvas from black to white:
leftmost column is black, rightmost is `(0 + 3·255)/4 = 191`. -/
theorem c8_gradient_endpoints_witness :
    createGradient idTrig 4 1 [(0, 0, 0), (255, 255, 255)] 0 (some "left_right") 0 0 =
        ⟨0, 0, 0, 255⟩ ∧
      createGradient idTrig 4 1 [(0, 0, 0), (255, 255, 255)] 0 (some "left_right") 3 0 =
        ⟨191, 191, 191, 255⟩ := by
  have h := c8_gradient_endpoints idTrig 4 1 (by norm_num) (0, 0, 0) (255, 255, 255)
    (by norm_num) (by norm_num) (by norm_num) (by norm_num) (by norm_num) (by norm_num) 0
  constructor
  · exact h.1
  · have h2 := h.2
    norm_num at h2
    exact h2

/-- The `shadow` mapping of the specification scenario: black, opacity 0.5,
offsets (5, 5), blur 0. -/
def shadowHalf : ShadowSpec := ⟨some "#000000", some (1 / 2), some 5, some 5, some 0⟩

/-- A text mask that is a filled `rcw × rch` rectangle anchored at the origin
(fully opaque inside, fully transparent outside). -/
def rectImg (rcw rch : ℕ) : Pix :=
  fun x y => if 0 ≤ x ∧ x < rcw ∧ 0 ≤ y ∧ y < rch then ⟨0, 0, 0, 255⟩ else clearPx

/-- The shadow layer the compositor builds for `shadowHalf` on `rectImg`
(the value `apply_shadow` reduces to: colored canvas, no blur, offset paste,
alpha rescale). -/
def c9Shadow (w h rcw rch : ℕ) : Pix :=
  scaleAlpha (1 / 2)
    (pasteSoft w h transparentPix
      (putalpha (constPix ⟨0, 0, 0, 127⟩) (alphaOf (rectImg rcw rch))) 5 5
      (alphaOf (rectImg rcw rch)))

/-- The default white fill layer the compositor builds on `rectImg` when the
style has no `fill` key. -/
def c9Fill (w h rcw rch : ℕ) : Pix :=
  pasteBinary w h transparentPix (constPix ⟨255, 255, 255, 255⟩) 0 0
    (fun a b => blendByte (alphaOf (rectImg rcw rch) a b) 0 255)


theorem transparentPix_eval (x y : ℤ) : transparentPix x y = clearPx := rfl

theorem rectImg_alpha (rcw rch : ℕ) (a b : ℤ) :
    (rectImg rcw rch a b).a = if 0 ≤ a ∧ a < rcw ∧ 0 ≤ b ∧ b < rch then 255 else 0 := by
  unfold rectImg
  split <;> rfl

theorem c9Shadow_pixel (w h rcw rch : ℕ) (x y : ℤ) (hx2 : x < w) (hy2 : y < h) :
    c9Shadow w h rcw rch x y =
      if 5 ≤ x ∧ x - 5 < rcw ∧ 5 ≤ y ∧ y - 5 < rch then ⟨0, 0, 0, 127⟩ else clearPx := by
  unfold c9Shadow scaleAlpha pasteSoft putalpha constPix alphaOf
  by_cases hhit : 5 ≤ x ∧ x - 5 < rcw ∧ 5 ≤ y ∧ y - 5 < rch
  · have hreg : inCanvas w h (x - 5) (y - 5) = true := by
      unfold inCanvas
      simp only [Bool.and_eq_true, decide_eq_true_eq]
      omega
    rw [if_pos hhit, if_pos hreg, rectImg_alpha, if_pos (by omega), transparentPix_eval]
    decide
  · rw [if_neg hhit]
    by_cases hreg2 : inCanvas w h (x - 5) (y - 5) = true
    · rw [if_pos hreg2, rectImg_alpha, if_neg (by
        rintro ⟨h1, h2, h3, h4⟩
        exact hhit ⟨by omega, by omega, by omega, by omega⟩), transparentPix_eval]
      decide
    · rw [if_neg hreg2, transparentPix_eval]
      decide

theorem c9Fill_pixel (w h rcw rch : ℕ) (x y : ℤ)
    (hx : 0 ≤ x) (hx2 : x < w) (hy : 0 ≤ y) (hy2 : y < h) :
    c9Fill w h rcw rch x y =
      if x < rcw ∧ y < rch then ⟨255, 255, 255, 255⟩ else clearPx := by
  unfold c9Fill pasteBinary constPix alphaOf
  simp only [sub_zero]
  have hreg : inCanvas w h x y = true := by
    unfold inCanvas
    simp only [Bool.and_eq_true, decide_eq_true_eq]
    omega
  by_cases hrect : x < rcw ∧ y < rch
  · rw [if_pos hrect, if_pos ⟨hreg, by
      rw [rectImg_alpha, if_pos (by omega)]
      decide⟩]
  · rw [if_neg hrect, if_neg (by
      rintro ⟨hr, hb⟩
      rw [rectImg_alpha, if_neg (by
        rintro ⟨h1, h2, h3, h4⟩
        exact hrect ⟨by omega, by omega⟩)] at hb
      exact hb (by decide)), transparentPix_eval]

/-- Claim C9 (amended): for a filled-rectangle mask and the shadow-only style
(black, opacity 0.5, offset (5,5), blur 0), the composited output is: opaque
WHITE (the unconditional default fill) over the original rectangle, the black
shadow with alpha 127 = ⌊255·0.5⌋ = 255 ÷ 2 at pixels of the (5,5)-shifted
rectangle outside the original one, and transparency elsewhere — not the
claimed pure shifted black rectangle, because the fill stage runs even
without a `fill` key. -/
theorem c9_shadow_scenario (gblur : ℚ → Chan → Chan)
    (trig : ℚ → ℕ → ℕ → ℚ × ℚ × ℚ × ℚ) (w h rcw rch : ℕ) (x y : ℤ)
    (hx : 0 ≤ x) (hx2 : x < w) (hy : 0 ≤ y) (hy2 : y < h) :
    (apply_all_effects gblur trig w h (rectImg rcw rch) (some shadowHalf)
        none none none none none).map (fun p => p x y) =
      .ok (if x < rcw ∧ y < rch then ⟨255, 255, 255, 255⟩
        else if 5 ≤ x ∧ x - 5 < rcw ∧ 5 ≤ y ∧ y - 5 < rch then ⟨0, 0, 0, 127⟩
        else clearPx) := by
  have hred : apply_all_effects gblur trig w h (rectImg rcw rch) (some shadowHalf)
      none none none none none =
      .ok (alphaComposite (alphaComposite transparentPix (c9Shadow w h rcw rch))
        (c9Fill w h rcw rch)) := rfl
  rw [hred]
  show Except.ok (alphaCompositePx (alphaCompositePx clearPx (c9Shadow w h rcw rch x y))
      (c9Fill w h rcw rch x y)) = _
  rw [c9Shadow_pixel w h rcw rch x y hx2 hy2, c9Fill_pixel w h rcw rch x y hx hx2 hy hy2]
  by_cases hrect : x < rcw ∧ y < rch
  · rw [if_pos hrect, if_pos hrect]
    by_cases hhit : 5 ≤ x ∧ x - 5 < rcw ∧ 5 ≤ y ∧ y - 5 < rch
    · rw [if_pos hhit]
      decide
    · rw [if_neg hhit]
      decide
  · rw [if_neg hrect, if_neg hrect]
    by_cases hhit : 5 ≤ x ∧ x - 5 < rcw ∧ 5 ≤ y ∧ y - 5 < rch
    · rw [if_pos hhit]
      decide
    · rw [if_neg hhit]
      decide

/-- Witness for `c9_shadow_scenario` on a 12×12 canvas with a 2×2 rectangle:
the glyph pixel (0,0) is white, the shifted shadow pixel (6,6) is black with
alpha 127, and a far pixel (11,0) is transparent. -/
theorem c9_shadow_scenario_witness :
    ((apply_all_effects idBlur idTrig 12 12 (rectImg 2 2) (some shadowHalf)
        none none none none none).map (fun p => p 0 0) = .ok ⟨255, 255, 255, 255⟩) ∧
      ((apply_all_effects idBlur idTrig 12 12 (rectImg 2 2) (some shadowHalf)
        none none none none none).map (fun p => p 6 6) = .ok ⟨0, 0, 0, 127⟩) ∧
      ((apply_all_effects idBlur idTrig 12 12 (rectImg 2 2) (some shadowHalf)
        none none none none none).map (fun p => p 11 0) = .ok clearPx) := by
  refine ⟨?_, ?_, ?_⟩
  · have h := c9_shadow_scenario idBlur idTrig 12 12 2 2 0 0
      (by norm_num) (by norm_num) (by norm_num) (by norm_num)
    rw [if_pos (by norm_num)] at h
    exact h
  · have h := c9_shadow_scenario idBlur idTrig 12 12 2 2 6 6
      (by norm_num) (by norm_num) (by norm_num) (by norm_num)
    rw [if_neg (by norm_num), if_pos (by norm_num)] at h
    exact h
  · have h := c9_shadow_scenario idBlur idTrig 12 12 2 2 11 0
      (by norm_num) (by norm_num) (by norm_num) (by norm_num)
    rw [if_neg (by norm_num), if_neg (by norm_num)] at h
    exact h

/-- Claim C9 (counterexample): with the shadow-only style of the scenario the
composited output is NOT just the (5,5)-shifted half-black rectangle — at the
original rectangle position (0,0), where the claim requires transparency (the
rectangle has moved away), the output is opaque white, because the fill stage
runs unconditionally. -/
theorem c9_shadow_scenario_counterexample :
    (apply_all_effects idBlur idTrig 6 6 (rectImg 1 1) (some shadowHalf)
        none none none none none).map (fun p => p 0 0) = .ok ⟨255, 255, 255, 255⟩ ∧
      (⟨255, 255, 255, 255⟩ : RGBA) ≠ clearPx ∧
      (⟨255, 255, 255, 255⟩ : RGBA) ≠ ⟨0, 0, 0, 127⟩ := by
  refine ⟨?_, by decide, by decide⟩
  show (Except.ok (alphaComposite (alphaComposite transparentPix (c9Shadow 6 6 1 1))
      (c9Fill 6 6 1 1))).map (fun p => p 0 0) = .ok ⟨255, 255, 255, 255⟩
  rw [Except.map]
  refine congrArg Except.ok ?_
  rw [show (alphaComposite (alphaComposite transparentPix (c9Shadow 6 6 1 1))
      (c9Fill 6 6 1 1)) 0 0 =
    alphaCompositePx (alphaCompositePx clearPx (c9Shadow 6 6 1 1 0 0)) (c9Fill 6 6 1 1 0 0) from rfl]
  rw [c9Shadow_pixel 6 6 1 1 0 0 (by norm_num) (by norm_num),
    c9Fill_pixel 6 6 1 1 0 0 (by norm_num) (by norm_num) (by norm_num) (by norm_num)]
  rw [if_neg (by norm_num), if_pos (by norm_num)]
  decide
